import Mathlib

/-!
Shallow embedding of the resumable pacing-and-crawl scheduler of the
research-fetch script (historical Discord channel fetcher).

Message ids are modelled as naturals; since platform snowflake ids are
monotone in creation time, a larger id denotes a newer message.
Timestamps (millisecond epoch values) are integers.  Randomness is made
explicit: each random draw of the source becomes a parameter (the uniform
draws of Math.random as rationals in [0,1), the Box-Muller core of the
gaussian as an arbitrary rational z).  Each main-loop iteration of the
scheduler becomes a step function over an explicit session state, driven
by a per-iteration environment describing the fetch outcome, and emitting
the externally visible events (fetch issued, log append, ledger save,
sleep) in their source order.
-/

namespace ResearchFetch

/-- One fetched chat message: id and creation timestamp (ms). -/
structure Msg where
  id : Nat
  ts : Int
  deriving Repr, DecidableEq

/-- Per-channel mutable checkpoint, mirroring interface ChannelProgress. -/
structure ChannelProgress where
  oldestMessageId : Option Nat
  totalMessages : Nat
  complete : Bool
  lastFetchedAt : Nat
  deriving Repr, DecidableEq

/-- The zero-value record returned by getChannelProgress for unseen channels. -/
def defaultProgress : ChannelProgress :=
  { oldestMessageId := none, totalMessages := 0, complete := false, lastFetchedAt := 0 }

/-- The progress ledger: mapping from channel id to ChannelProgress. -/
abbrev Ledger := List (Nat × ChannelProgress)

/-- getChannelProgress: the stored record, or the zero-value default. -/
def getChannelProgress (progress : Ledger) (channelId : Nat) : ChannelProgress :=
  (progress.lookup channelId).getD defaultProgress

/-- progress.channels[channel.id] = cp (keyed store update). -/
def setChannelProgress (progress : Ledger) (channelId : Nat) (cp : ChannelProgress) :
    Ledger :=
  (channelId, cp) :: progress.filter (fun p => p.1 != channelId)

/-- One crawlable unit: (serverId, channelId) of a configured channel. -/
structure Chan where
  serverId : Nat
  channelId : Nat
  deriving Repr, DecidableEq

/-- gaussianRandom(mean, stddev): mean + z * stddev, where z is the
Box-Muller core sqrt(-2 ln u1) * cos(2 pi u2), kept as a parameter. -/
def gaussianRandom (mean stddev z : ℚ) : ℚ := mean + z * stddev

/-- Math.min(maxSec, Math.max(minSec, sec)): the clamp inside randomDelay. -/
def clampSec (minSec maxSec sec : ℚ) : ℚ := min maxSec (max minSec sec)

/-- randomDelay: gaussian draw clamped to [min, max] seconds, rounded to ms. -/
def randomDelay (meanSec stddevSec minSec maxSec z : ℚ) : ℤ :=
  round (clampSec minSec maxSec (gaussianRandom meanSec stddevSec z) * 1000)

/-- randInt(min, max): Math.floor(u * (max - min + 1)) + min for u = Math.random(). -/
def randInt (u : ℚ) (lo hi : ℤ) : ℤ := ⌊u * ((hi : ℚ) - (lo : ℚ) + 1)⌋ + lo

/-- Accumulator of the per-page message loop: retained batch, running
oldest timestamp (none plays Infinity), its message id, cutoff flag. -/
structure PageScan where
  retained : List Msg
  oldestTimestamp : Option Int
  oldestId : Option Nat
  hitCutoff : Bool
  deriving Repr, DecidableEq

/-- ts < oldestTimestamp, where an unset accumulator means Infinity. -/
def tsBelowOldest (acc : PageScan) (t : Int) : Bool :=
  match acc.oldestTimestamp with
  | none => true
  | some t0 => t < t0

/-- One iteration of the for-loop over a fetched page. -/
def scanMsg (cutoff : Int) (acc : PageScan) (m : Msg) : PageScan :=
  if m.ts < cutoff then { acc with hitCutoff := true }
  else
    let acc1 :=
      if tsBelowOldest acc m.ts then
        { acc with oldestTimestamp := some m.ts, oldestId := some m.id }
      else acc
    { acc1 with retained := acc1.retained ++ [m] }

/-- The whole per-page loop, messages in API order (newest first). -/
def scanPage (cutoff : Int) (msgs : List Msg) : PageScan :=
  msgs.foldl (scanMsg cutoff)
    { retained := [], oldestTimestamp := none, oldestId := none, hitCutoff := false }

/-- The progress update after processing a non-empty page (source lines
marking complete on cutoff, updating the oldest pointer, bumping totals). -/
def updateProgress (now : Nat) (scan : PageScan) (cp : ChannelProgress) :
    ChannelProgress :=
  let cp1 := if scan.hitCutoff then { cp with complete := true } else cp
  let cp2 :=
    match scan.oldestId with
    | some oid => { cp1 with oldestMessageId := some oid }
    | none => if scan.hitCutoff then { cp1 with complete := true } else cp1
  { cp2 with
    totalMessages := cp2.totalMessages + scan.retained.length
    lastFetchedAt := now }

/-- In-memory session state threaded through the main loop. -/
structure SessionState where
  progress : Ledger
  rrIndex : Nat
  requestsSinceLastPause : Nat
  nextPauseAfter : ℤ
  slowdownRemaining : Nat
  sessionMessages : Nat
  deriving Repr, DecidableEq

/-- Outcome of one iteration's interaction with the platform client. -/
inductive FetchOutcome where
  | guildMissing
  | inaccessible
  | page (msgs : List Msg)
  | rateLimited
  | otherError
  deriving Repr, DecidableEq

/-- Per-iteration environment: fetch outcome, clock, and random draws. -/
structure Env where
  outcome : FetchOutcome
  now : Nat
  uBackoff : ℚ
  uPause : ℚ
  uNextPause : ℚ
  zGauss : ℚ
  deriving Repr, DecidableEq

/-- Externally visible actions of one iteration, in program order. -/
inductive Event where
  | fetchIssued (channelId : Nat) (before : Option Nat)
  | appendLog (serverId channelId : Nat) (batch : List Msg)
  | saveLedger (progress : Ledger)
  | sleepMs (ms : ℤ)
  deriving Repr, DecidableEq

/-- The pacing block at the end of a successful non-empty-page iteration. -/
def pacing (env : Env) (s : SessionState) : SessionState × List Event :=
  if (s.requestsSinceLastPause : ℤ) ≥ s.nextPauseAfter then
    ({ s with
        requestsSinceLastPause := 0
        nextPauseAfter := randInt env.uNextPause 8 15 },
     [Event.sleepMs (randInt env.uPause 15 45 * 1000)])
  else
    let multiplier : ℤ := if s.slowdownRemaining > 0 then 2 else 1
    let delayMs := randomDelay 5 1.2 3 8 env.zGauss * multiplier
    ({ s with
        slowdownRemaining :=
          if s.slowdownRemaining > 0 then s.slowdownRemaining - 1
          else s.slowdownRemaining },
     [Event.sleepMs delayMs])

/-- The filter applied both at startup (activeChannels) and at each
iteration (stillActive): keep only channels not marked complete. -/
def stillActiveOf (chans : List Chan) (progress : Ledger) : List Chan :=
  chans.filter (fun c => !(getChannelProgress progress c.channelId).complete)

/-- The channel the round-robin selection would pick in state s. -/
def selectedChannel (chans : List Chan) (s : SessionState) : Option Chan :=
  let sa := stillActiveOf chans s.progress
  sa[s.rrIndex % sa.length]?

/-- Body of one main-loop iteration once a channel has been selected.
saLen is the current active-set size used to advance the round-robin
index (rrIndex = rrIndex % len, select, rrIndex++ in the source). -/
def stepWith (cutoff : Int) (env : Env) (s : SessionState) (c : Chan) (saLen : Nat) :
    SessionState × List Event :=
  let s1 := { s with rrIndex := s.rrIndex % saLen + 1 }
  let cp := getChannelProgress s.progress c.channelId
  match env.outcome with
  | .guildMissing => (s1, [])
  | .inaccessible =>
      let cp1 := { cp with complete := true }
      let pr := setChannelProgress s1.progress c.channelId cp1
      ({ s1 with progress := pr }, [Event.saveLedger pr])
  | .rateLimited =>
      ({ s1 with slowdownRemaining := 20 },
       [Event.fetchIssued c.channelId cp.oldestMessageId,
        Event.sleepMs (randInt env.uBackoff 60 120 * 1000)])
  | .otherError =>
      (s1, [Event.fetchIssued c.channelId cp.oldestMessageId])
  | .page msgs =>
      let s2 := { s1 with requestsSinceLastPause := s1.requestsSinceLastPause + 1 }
      if msgs.isEmpty then
        let cp1 := { cp with complete := true, lastFetchedAt := env.now }
        let pr := setChannelProgress s2.progress c.channelId cp1
        ({ s2 with progress := pr },
         [Event.fetchIssued c.channelId cp.oldestMessageId, Event.saveLedger pr])
      else
        let scan := scanPage cutoff msgs
        let cp1 := updateProgress env.now scan cp
        let pr := setChannelProgress s2.progress c.channelId cp1
        let s3 :=
          { s2 with
              progress := pr
              sessionMessages := s2.sessionMessages + scan.retained.length }
        let appendEvs :=
          if scan.retained.isEmpty then []
          else [Event.appendLog c.serverId c.channelId scan.retained]
        let paced := pacing env s3
        (paced.1,
         Event.fetchIssued c.channelId cp.oldestMessageId ::
           appendEvs ++ Event.saveLedger pr :: paced.2)

/-- One main-loop iteration: recompute the active set, select by
round-robin, run the body; none when the active set is empty (loop exit). -/
def step (cutoff : Int) (chans : List Chan) (env : Env) (s : SessionState) :
    Option (SessionState × List Event) :=
  match (stillActiveOf chans s.progress)[s.rrIndex %
      (stillActiveOf chans s.progress).length]? with
  | none => none
  | some c => some (stepWith cutoff env s c (stillActiveOf chans s.progress).length)

/-- A run: iterate the step over a list of per-iteration environments,
stopping when the active set empties, concatenating all emitted events. -/
def run (cutoff : Int) (chans : List Chan) :
    List Env → SessionState → SessionState × List Event
  | [], s => (s, [])
  | e :: es, s =>
    match step cutoff chans e s with
    | none => (s, [])
    | some (s', evs) =>
      let r := run cutoff chans es s'
      (r.1, evs ++ r.2)

/-- Event classifiers and counters used by the stated properties. -/
def isFetchFor (channelId : Nat) : Event → Bool
  | .fetchIssued c _ => c == channelId
  | _ => false

def fetchCount (channelId : Nat) (evs : List Event) : Nat :=
  evs.countP (isFetchFor channelId)

def isSleep : Event → Bool
  | .sleepMs _ => true
  | _ => false

/-- Total size of the batches appended to channelId's log in a trace. -/
def retainedFor (channelId : Nat) : List Event → Nat
  | [] => 0
  | .appendLog _ c b :: rest =>
      (if c = channelId then b.length else 0) + retainedFor channelId rest
  | _ :: rest => retainedFor channelId rest

/-- Environments whose outcome fetches the selected channel and cannot
complete it: pages entirely within the cutoff, rate limits, transient
errors (used to phrase the fairness hypothesis of round-robin). -/
def keepsActive (cutoff : Int) (e : Env) : Prop :=
  match e.outcome with
  | .guildMissing => False
  | .inaccessible => False
  | .page msgs => msgs ≠ [] ∧ ∀ m ∈ msgs, cutoff ≤ m.ts
  | .rateLimited => True
  | .otherError => True

/-! ### Basic lemmas about the ledger store -/

theorem lookup_filter_ne (p : Ledger) (cid cid' : Nat) (h : cid' ≠ cid) :
    (p.filter (fun q => q.1 != cid)).lookup cid' = p.lookup cid' := by
  induction p with
  | nil => rfl
  | cons hd tl ih =>
    obtain ⟨k, v⟩ := hd
    rcases eq_or_ne k cid with hk | hk
    · subst hk
      have hne : (cid' == k) = false := by simp [h]
      simp [List.filter_cons, List.lookup, hne, ih]
    · by_cases hck : cid' = k
      · subst hck
        simp [List.filter_cons, hk, List.lookup]
      · have hne : (cid' == k) = false := by simp [hck]
        simp [List.filter_cons, hk, List.lookup, hne, ih]

theorem getChannelProgress_set (p : Ledger) (cid cid' : Nat) (cp : ChannelProgress) :
    getChannelProgress (setChannelProgress p cid cp) cid' =
      if cid' = cid then cp else getChannelProgress p cid' := by
  unfold getChannelProgress setChannelProgress
  rcases eq_or_ne cid' cid with h | h
  · subst h
    simp [List.lookup]
  · have hne : (cid' == cid) = false := by simp [h]
    simp [List.lookup, hne, h, lookup_filter_ne p cid cid' h]

theorem selected_not_complete (chans : List Chan) (p : Ledger) (c : Chan) (i : Nat)
    (h : (stillActiveOf chans p)[i]? = some c) :
    (getChannelProgress p c.channelId).complete = false := by
  have hc : c ∈ stillActiveOf chans p := List.getElem?_mem h
  unfold stillActiveOf at hc
  have := List.of_mem_filter hc
  simpa using this

/-! ### Lemmas about the page scan -/

theorem scan_foldl_retained (cutoff : Int) (msgs : List Msg) (acc : PageScan) :
    (msgs.foldl (scanMsg cutoff) acc).retained =
      acc.retained ++ msgs.filter (fun m => decide (cutoff ≤ m.ts)) := by
  induction msgs generalizing acc with
  | nil => simp
  | cons m ms ih =>
    simp only [List.foldl_cons, List.filter_cons]
    by_cases hm : m.ts < cutoff
    · have hd : decide (cutoff ≤ m.ts) = false := by simp [Int.not_le.mpr hm]
      rw [ih]
      simp [scanMsg, hm, hd]
    · have hd : decide (cutoff ≤ m.ts) = true := by simp [Int.not_lt.mp hm]
      rw [ih]
      have hr : (scanMsg cutoff acc m).retained = acc.retained ++ [m] := by
        by_cases ho : tsBelowOldest acc m.ts = true <;> simp [scanMsg, hm, ho]
      simp [hr, hd]

theorem scan_foldl_hitCutoff (cutoff : Int) (msgs : List Msg) (acc : PageScan) :
    (msgs.foldl (scanMsg cutoff) acc).hitCutoff =
      (acc.hitCutoff || msgs.any (fun m => decide (m.ts < cutoff))) := by
  induction msgs generalizing acc with
  | nil => simp
  | cons m ms ih =>
    simp only [List.foldl_cons, List.any_cons]
    by_cases hm : m.ts < cutoff
    · rw [ih]
      simp [scanMsg, hm]
    · have hh : (scanMsg cutoff acc m).hitCutoff = acc.hitCutoff := by
        by_cases ho : tsBelowOldest acc m.ts = true <;> simp [scanMsg, hm, ho]
      rw [ih, hh]
      simp [hm]

theorem scanPage_retained (cutoff : Int) (msgs : List Msg) :
    (scanPage cutoff msgs).retained = msgs.filter (fun m => decide (cutoff ≤ m.ts)) := by
  unfold scanPage
  rw [scan_foldl_retained]
  rfl

theorem scanPage_hitCutoff (cutoff : Int) (msgs : List Msg) :
    (scanPage cutoff msgs).hitCutoff = msgs.any (fun m => decide (m.ts < cutoff)) := by
  unfold scanPage
  rw [scan_foldl_hitCutoff]
  rfl

/-! ### Lemmas about the progress update after a page -/

theorem updateProgress_complete (now : Nat) (scan : PageScan) (cp : ChannelProgress) :
    (updateProgress now scan cp).complete = (cp.complete || scan.hitCutoff) := by
  unfold updateProgress
  cases ho : scan.oldestId <;> by_cases hh : scan.hitCutoff = true <;> simp [hh]

theorem updateProgress_total (now : Nat) (scan : PageScan) (cp : ChannelProgress) :
    (updateProgress now scan cp).totalMessages = cp.totalMessages + scan.retained.length := by
  unfold updateProgress
  cases ho : scan.oldestId <;> by_cases hh : scan.hitCutoff = true <;> simp [hh]

theorem updateProgress_oldest (now : Nat) (scan : PageScan) (cp : ChannelProgress) :
    (updateProgress now scan cp).oldestMessageId = scan.oldestId.or cp.oldestMessageId := by
  unfold updateProgress
  cases ho : scan.oldestId <;> by_cases hh : scan.hitCutoff = true <;> simp [hh]

/-! ### Lemmas about pacing -/

theorem pacing_progress (env : Env) (s : SessionState) :
    (pacing env s).1.progress = s.progress := by
  unfold pacing
  split <;> rfl

theorem pacing_events (env : Env) (s : SessionState) :
    ∃ ms, (pacing env s).2 = [Event.sleepMs ms] := by
  unfold pacing
  split
  · exact ⟨_, rfl⟩
  · exact ⟨_, rfl⟩

/-! ### Inversion and basic facts about one step -/

theorem step_of_selected (cutoff : Int) (chans : List Chan) (env : Env) (s : SessionState)
    (c : Chan)
    (hsel : (stillActiveOf chans s.progress)[s.rrIndex %
      (stillActiveOf chans s.progress).length]? = some c) :
    step cutoff chans env s =
      some (stepWith cutoff env s c (stillActiveOf chans s.progress).length) := by
  unfold step
  rw [hsel]

theorem step_inv (cutoff : Int) (chans : List Chan) (env : Env) (s s' : SessionState)
    (evs : List Event) (h : step cutoff chans env s = some (s', evs)) :
    ∃ c, (stillActiveOf chans s.progress)[s.rrIndex %
        (stillActiveOf chans s.progress).length]? = some c ∧
      (s', evs) = stepWith cutoff env s c (stillActiveOf chans s.progress).length := by
  unfold step at h
  split at h
  · exact absurd h (by simp)
  · next c hsel => exact ⟨c, hsel, (Option.some_injective _ h).symm⟩

theorem pacing_rrIndex (env : Env) (s : SessionState) :
    (pacing env s).1.rrIndex = s.rrIndex := by
  unfold pacing
  split <;> rfl

theorem pacing_countP_fetch (env : Env) (s : SessionState) (cid : Nat) :
    (pacing env s).2.countP (isFetchFor cid) = 0 := by
  unfold pacing
  split <;> simp [isFetchFor]

theorem retainedFor_append (cid : Nat) (l1 l2 : List Event) :
    retainedFor cid (l1 ++ l2) = retainedFor cid l1 + retainedFor cid l2 := by
  induction l1 with
  | nil => simp [retainedFor]
  | cons e rest ih =>
    cases e
    all_goals simp [retainedFor, ih, Nat.add_assoc]

theorem pacing_retainedFor (env : Env) (s : SessionState) (cid : Nat) :
    retainedFor cid (pacing env s).2 = 0 := by
  unfold pacing
  split <;> simp [retainedFor]

/-- The complete flag of any channel is monotone across one iteration body. -/
theorem stepWith_complete_mono (cutoff : Int) (env : Env) (s : SessionState) (c : Chan)
    (n : Nat) (cid : Nat) (h : (getChannelProgress s.progress cid).complete = true) :
    (getChannelProgress (stepWith cutoff env s c n).1.progress cid).complete = true := by
  obtain ⟨o, now, uB, uP, uN, z⟩ := env
  cases o with
  | guildMissing => simpa [stepWith] using h
  | rateLimited => simpa [stepWith] using h
  | otherError => simpa [stepWith] using h
  | inaccessible =>
    by_cases hc : cid = c.channelId
    · subst hc
      simp [stepWith, getChannelProgress_set]
    · simpa [stepWith, getChannelProgress_set, hc] using h
  | page msgs =>
    by_cases hme : msgs.isEmpty
    · by_cases hc : cid = c.channelId
      · subst hc
        simp [stepWith, hme, getChannelProgress_set]
      · simpa [stepWith, hme, getChannelProgress_set, hc] using h
    · by_cases hc : cid = c.channelId
      · subst hc
        simp [stepWith, hme, pacing_progress, getChannelProgress_set,
          updateProgress_complete, h]
      · simpa [stepWith, hme, pacing_progress, getChannelProgress_set, hc] using h

/-- No iteration body issues a fetch for a channel other than the selected one. -/
theorem stepWith_fetchCount_ne (cutoff : Int) (env : Env) (s : SessionState) (c : Chan)
    (n : Nat) (cid : Nat) (h : c.channelId ≠ cid) :
    fetchCount cid (stepWith cutoff env s c n).2 = 0 := by
  obtain ⟨o, now, uB, uP, uN, z⟩ := env
  cases o with
  | guildMissing => simp [stepWith, fetchCount]
  | inaccessible => simp [stepWith, fetchCount, isFetchFor]
  | rateLimited => simp [stepWith, fetchCount, isFetchFor, h]
  | otherError => simp [stepWith, fetchCount, isFetchFor, h]
  | page msgs =>
    by_cases hme : msgs.isEmpty
    · simp [stepWith, hme, fetchCount, isFetchFor, h]
    · by_cases hre : (scanPage cutoff msgs).retained.isEmpty <;>
        simp [stepWith, hme, hre, fetchCount, isFetchFor, h, List.countP_cons,
          List.countP_append, pacing_countP_fetch]

/-- The round-robin index after one iteration body. -/
theorem stepWith_rrIndex (cutoff : Int) (env : Env) (s : SessionState) (c : Chan)
    (n : Nat) :
    (stepWith cutoff env s c n).1.rrIndex = s.rrIndex % n + 1 := by
  obtain ⟨o, now, uB, uP, uN, z⟩ := env
  cases o with
  | guildMissing => simp [stepWith]
  | inaccessible => simp [stepWith]
  | rateLimited => simp [stepWith]
  | otherError => simp [stepWith]
  | page msgs =>
    by_cases hme : msgs.isEmpty
    · simp [stepWith, hme]
    · simp [stepWith, hme, pacing_rrIndex]

/-- The cumulative count of any channel grows by exactly the total size of
the batches appended for it by this iteration body. -/
theorem stepWith_total (cutoff : Int) (env : Env) (s : SessionState) (c : Chan)
    (n : Nat) (cid : Nat) :
    (getChannelProgress (stepWith cutoff env s c n).1.progress cid).totalMessages =
      (getChannelProgress s.progress cid).totalMessages +
        retainedFor cid (stepWith cutoff env s c n).2 := by
  obtain ⟨o, now, uB, uP, uN, z⟩ := env
  cases o with
  | guildMissing => simp [stepWith, retainedFor]
  | rateLimited => simp [stepWith, retainedFor]
  | otherError => simp [stepWith, retainedFor]
  | inaccessible =>
    by_cases hc : cid = c.channelId
    · subst hc
      simp [stepWith, getChannelProgress_set, retainedFor]
    · simp [stepWith, getChannelProgress_set, hc, retainedFor]
  | page msgs =>
    by_cases hme : msgs.isEmpty
    · by_cases hc : cid = c.channelId
      · subst hc
        simp [stepWith, hme, getChannelProgress_set, retainedFor]
      · simp [stepWith, hme, getChannelProgress_set, hc, retainedFor]
    · by_cases hre : (scanPage cutoff msgs).retained.isEmpty
      · by_cases hc : cid = c.channelId
        · subst hc
          simp [stepWith, hme, hre, pacing_progress, getChannelProgress_set,
            updateProgress_total, retainedFor, retainedFor_append, pacing_retainedFor,
            List.isEmpty_iff.mp hre]
        · simp [stepWith, hme, hre, pacing_progress, getChannelProgress_set, hc,
            retainedFor, retainedFor_append, pacing_retainedFor]
      · by_cases hc : cid = c.channelId
        · subst hc
          simp [stepWith, hme, hre, pacing_progress, getChannelProgress_set,
            updateProgress_total, retainedFor, retainedFor_append, pacing_retainedFor]
        · have hc' : c.channelId ≠ cid := fun hcc => hc hcc.symm
          simp [stepWith, hme, hre, pacing_progress, getChannelProgress_set, hc, hc',
            retainedFor, retainedFor_append, pacing_retainedFor]

/-- C1: once a Channel Progress record with complete = true is in the ledger,
no fetch is issued for that channel by any remaining iteration of a run that
works from that ledger (and the flag itself survives every iteration), so
neither the rest of the same run nor any later run loading the ledger ever
fetches the channel again. -/
theorem complete_channel_never_fetched (cutoff : Int) (chans : List Chan) (es : List Env)
    (s : SessionState) (cid : Nat)
    (h : (getChannelProgress s.progress cid).complete = true) :
    fetchCount cid (run cutoff chans es s).2 = 0 := by
  induction es generalizing s with
  | nil => rfl
  | cons e es ih =>
    unfold run
    cases hstep : step cutoff chans e s with
    | none => rfl
    | some r =>
      obtain ⟨s', evs⟩ := r
      obtain ⟨c, hsel, heq⟩ := step_inv cutoff chans e s s' evs hstep
      have hs' : s' = (stepWith cutoff e s c (stillActiveOf chans s.progress).length).1 := by
        rw [← heq]
      have hevs : evs = (stepWith cutoff e s c (stillActiveOf chans s.progress).length).2 := by
        rw [← heq]
      have hcne : c.channelId ≠ cid := by
        intro hcc
        have hnc := selected_not_complete chans s.progress c _ hsel
        rw [hcc, h] at hnc
        exact Bool.true_eq_false ▸ hnc
      have hevs0 : fetchCount cid evs = 0 := by
        rw [hevs]
        exact stepWith_fetchCount_ne cutoff e s c _ cid hcne
      have hcomp : (getChannelProgress s'.progress cid).complete = true := by
        rw [hs']
        exact stepWith_complete_mono cutoff e s c _ cid h
      have hrest := ih s' hcomp
      simp only [fetchCount] at hevs0 hrest ⊢
      simp [List.countP_append, hevs0, hrest]

/-- C1 witness: a ledger marking channel 5 complete; one further iteration
(which selects the other channel) issues no fetch for channel 5. -/
theorem complete_channel_never_fetched_w :
    (getChannelProgress
      (SessionState.mk [(5, ⟨some 7, 3, true, 0⟩)] 0 0 9 0 0).progress 5).complete = true ∧
    fetchCount 5 (run 0 [⟨1, 5⟩, ⟨1, 6⟩] [⟨FetchOutcome.otherError, 0, 0, 0, 0, 0⟩]
      (SessionState.mk [(5, ⟨some 7, 3, true, 0⟩)] 0 0 9 0 0)).2 = 0 :=
  ⟨rfl, complete_channel_never_fetched 0 [⟨1, 5⟩, ⟨1, 6⟩]
    [⟨FetchOutcome.otherError, 0, 0, 0, 0, 0⟩]
    (SessionState.mk [(5, ⟨some 7, 3, true, 0⟩)] 0 0 9 0 0) 5 rfl⟩

/-- C10: across every scheduler operation, a channel's totalMessages changes
exactly by the size of the batches appended for it (in particular it never
decreases), and the complete flag, once true, is never reset. -/
theorem totals_grow_by_batches_and_complete_sticky (cutoff : Int) (chans : List Chan)
    (env : Env) (s s' : SessionState) (evs : List Event) (cid : Nat)
    (h : step cutoff chans env s = some (s', evs)) :
    (getChannelProgress s'.progress cid).totalMessages =
      (getChannelProgress s.progress cid).totalMessages + retainedFor cid evs ∧
    ((getChannelProgress s.progress cid).complete = true →
      (getChannelProgress s'.progress cid).complete = true) := by
  obtain ⟨c, hsel, heq⟩ := step_inv cutoff chans env s s' evs h
  have hs' : s' = (stepWith cutoff env s c (stillActiveOf chans s.progress).length).1 := by
    rw [← heq]
  have hevs : evs = (stepWith cutoff env s c (stillActiveOf chans s.progress).length).2 := by
    rw [← heq]
  rw [hs', hevs]
  exact ⟨stepWith_total cutoff env s c _ cid,
    fun hc => stepWith_complete_mono cutoff env s c _ cid hc⟩

/-- C10 witness: a concrete iteration (guild missing for the only channel)
taken through the step function. -/
theorem totals_grow_by_batches_and_complete_sticky_w :
    step 0 [⟨1, 5⟩] ⟨FetchOutcome.guildMissing, 0, 0, 0, 0, 0⟩
      (SessionState.mk [] 0 0 9 0 0) = some (SessionState.mk [] 1 0 9 0 0, []) ∧
    ((getChannelProgress (SessionState.mk [] 1 0 9 0 0).progress 5).totalMessages =
      (getChannelProgress (SessionState.mk [] 0 0 9 0 0).progress 5).totalMessages +
        retainedFor 5 [] ∧
    ((getChannelProgress (SessionState.mk [] 0 0 9 0 0).progress 5).complete = true →
      (getChannelProgress (SessionState.mk [] 1 0 9 0 0).progress 5).complete = true)) :=
  ⟨rfl, totals_grow_by_batches_and_complete_sticky 0 [⟨1, 5⟩]
    ⟨FetchOutcome.guildMissing, 0, 0, 0, 0, 0⟩
    (SessionState.mk [] 0 0 9 0 0) (SessionState.mk [] 1 0 9 0 0) [] 5 rfl⟩

/-- Bounds of randInt for a uniform draw in [0, 1). -/
theorem randInt_bounds (u : ℚ) (lo hi : ℤ) (h0 : 0 ≤ u) (h1 : u < 1) (hlh : lo ≤ hi) :
    lo ≤ randInt u lo hi ∧ randInt u lo hi ≤ hi := by
  unfold randInt
  have hpos : (0:ℚ) < (hi:ℚ) - (lo:ℚ) + 1 := by
    have hle : (lo:ℚ) ≤ (hi:ℚ) := by exact_mod_cast hlh
    linarith
  constructor
  · have h2 : (0:ℚ) ≤ u * ((hi:ℚ) - (lo:ℚ) + 1) := mul_nonneg h0 (le_of_lt hpos)
    have h3 : (0:ℤ) ≤ ⌊u * ((hi:ℚ) - (lo:ℚ) + 1)⌋ := Int.floor_nonneg.mpr h2
    omega
  · have h2 : u * ((hi:ℚ) - (lo:ℚ) + 1) < ((hi - lo + 1 : ℤ) : ℚ) := by
      push_cast
      nlinarith
    have h3 : ⌊u * ((hi:ℚ) - (lo:ℚ) + 1)⌋ < hi - lo + 1 := Int.floor_lt.mpr h2
    omega

/-- C2 counterexample: a ledger whose checkpoint for channel 5 is message
100; a fetched page holds only message 999 (a strictly larger snowflake,
hence newer) with an in-cutoff timestamp. The scheduler moves the pointer
forward to 999 and the iteration completes normally instead of stopping. -/
theorem oldest_pointer_regression_cx :
    (getChannelProgress
      (SessionState.mk [(5, ⟨some 100, 10, false, 0⟩)] 0 0 9 0 0).progress
        5).oldestMessageId = some 100 ∧
    (step 0 [⟨1, 5⟩] ⟨FetchOutcome.page [⟨999, 50⟩], 7, 0, 0, 0, 0⟩
        (SessionState.mk [(5, ⟨some 100, 10, false, 0⟩)] 0 0 9 0 0)).map
      (fun r => (getChannelProgress r.1.progress 5).oldestMessageId) =
      some (some 999) ∧
    100 < 999 :=
  ⟨rfl, rfl, by decide⟩

/-- C2 amended: each update of oldestMessageId overwrites it with the id of
the oldest retained message of the fetched page, with no comparison against
the previous checkpoint; even when that id is strictly newer (a larger
snowflake) than the previous checkpoint, the update is silently applied and
the iteration completes normally rather than stopping the process. -/
theorem oldest_pointer_overwritten_unchecked (cutoff : Int) (chans : List Chan)
    (env : Env) (s : SessionState) (c : Chan) (msgs : List Msg) (oid prev : Nat)
    (hsel : (stillActiveOf chans s.progress)[s.rrIndex %
      (stillActiveOf chans s.progress).length]? = some c)
    (ho : env.outcome = .page msgs) (hne : msgs.isEmpty = false)
    (hoid : (scanPage cutoff msgs).oldestId = some oid)
    (_hprev : (getChannelProgress s.progress c.channelId).oldestMessageId = some prev)
    (_hfwd : prev < oid) :
    ∃ s' evs, step cutoff chans env s = some (s', evs) ∧
      (getChannelProgress s'.progress c.channelId).oldestMessageId = some oid := by
  rw [step_of_selected cutoff chans env s c hsel]
  refine ⟨_, _, rfl, ?_⟩
  obtain ⟨o, now, uB, uP, uN, z⟩ := env
  replace ho : o = FetchOutcome.page msgs := ho
  subst ho
  simp [stepWith, hne, pacing_progress, getChannelProgress_set,
    updateProgress_oldest, hoid]

/-- C2 amended witness: the concrete forward move of the counterexample,
taken through the amended theorem. -/
theorem oldest_pointer_overwritten_unchecked_w :
    (scanPage 0 [⟨999, 50⟩]).oldestId = some 999 ∧
    (getChannelProgress
      (SessionState.mk [(5, ⟨some 100, 10, false, 0⟩)] 0 0 9 0 0).progress
        5).oldestMessageId = some 100 ∧
    (∃ s' evs,
      step 0 [⟨1, 5⟩] ⟨FetchOutcome.page [⟨999, 50⟩], 7, 0, 0, 0, 0⟩
        (SessionState.mk [(5, ⟨some 100, 10, false, 0⟩)] 0 0 9 0 0) = some (s', evs) ∧
      (getChannelProgress s'.progress 5).oldestMessageId = some 999) :=
  ⟨rfl, rfl,
    oldest_pointer_overwritten_unchecked 0 [⟨1, 5⟩]
      ⟨FetchOutcome.page [⟨999, 50⟩], 7, 0, 0, 0, 0⟩
      (SessionState.mk [(5, ⟨some 100, 10, false, 0⟩)] 0 0 9 0 0)
      ⟨1, 5⟩ [⟨999, 50⟩] 999 100 rfl rfl rfl rfl rfl (by decide)⟩

/-- C3 counterexample: two fresh channels; the first is selected and the
fetch is rate-limited. On the next scheduling pass the second channel is
selected, not the same one: the round-robin pointer did advance. -/
theorem rate_limit_rr_advances_cx :
    selectedChannel [⟨1, 5⟩, ⟨1, 6⟩] (SessionState.mk [] 0 0 9 0 0) = some ⟨1, 5⟩ ∧
    (step 0 [⟨1, 5⟩, ⟨1, 6⟩] ⟨FetchOutcome.rateLimited, 0, 0, 0, 0, 0⟩
        (SessionState.mk [] 0 0 9 0 0)).map
      (fun r => selectedChannel [⟨1, 5⟩, ⟨1, 6⟩] r.1) = some (some ⟨1, 6⟩) ∧
    (⟨1, 6⟩ : Chan) ≠ ⟨1, 5⟩ :=
  ⟨rfl, rfl, by decide⟩

/-- C3 amended: a rate-limit signal leaves the ledger unmutated and persists
nothing (the trace is exactly the issued fetch and one backoff sleep of
randInt-in-[60,120] seconds), and sets the slowdown counter to 20; but the
round-robin index was already advanced when the channel was selected, so the
channel is only guaranteed to remain eligible (still in the active set), not
to be re-selected on the immediately following pass. -/
theorem rate_limit_no_mutation (cutoff : Int) (chans : List Chan) (env : Env)
    (s : SessionState) (c : Chan)
    (hsel : (stillActiveOf chans s.progress)[s.rrIndex %
      (stillActiveOf chans s.progress).length]? = some c)
    (ho : env.outcome = .rateLimited)
    (hu0 : 0 ≤ env.uBackoff) (hu1 : env.uBackoff < 1) :
    step cutoff chans env s = some
      ({ s with
          rrIndex := s.rrIndex % (stillActiveOf chans s.progress).length + 1
          slowdownRemaining := 20 },
       [Event.fetchIssued c.channelId
          (getChannelProgress s.progress c.channelId).oldestMessageId,
        Event.sleepMs (randInt env.uBackoff 60 120 * 1000)]) ∧
    60 ≤ randInt env.uBackoff 60 120 ∧ randInt env.uBackoff 60 120 ≤ 120 ∧
    c ∈ stillActiveOf chans s.progress := by
  obtain ⟨hb1, hb2⟩ := randInt_bounds env.uBackoff 60 120 hu0 hu1 (by omega)
  refine ⟨?_, hb1, hb2, List.getElem?_mem hsel⟩
  rw [step_of_selected cutoff chans env s c hsel]
  obtain ⟨o, now, uB, uP, uN, z⟩ := env
  replace ho : o = FetchOutcome.rateLimited := ho
  subst ho
  rfl

/-- C3 amended witness: a concrete rate-limited iteration. -/
theorem rate_limit_no_mutation_w :
    (0:ℚ) ≤ 0 ∧ (0:ℚ) < 1 ∧
    (step 0 [⟨1, 5⟩, ⟨1, 6⟩] ⟨FetchOutcome.rateLimited, 0, 0, 0, 0, 0⟩
        (SessionState.mk [] 0 0 9 0 0) = some
      ({ SessionState.mk [] 0 0 9 0 0 with
          rrIndex := 0 % (stillActiveOf [⟨1, 5⟩, ⟨1, 6⟩] []).length + 1
          slowdownRemaining := 20 },
       [Event.fetchIssued 5 (getChannelProgress [] 5).oldestMessageId,
        Event.sleepMs (randInt 0 60 120 * 1000)]) ∧
    60 ≤ randInt 0 60 120 ∧ randInt 0 60 120 ≤ 120 ∧
    (⟨1, 5⟩ : Chan) ∈ stillActiveOf [⟨1, 5⟩, ⟨1, 6⟩] []) :=
  ⟨le_refl 0, zero_lt_one,
    rate_limit_no_mutation 0 [⟨1, 5⟩, ⟨1, 6⟩] ⟨FetchOutcome.rateLimited, 0, 0, 0, 0, 0⟩
      (SessionState.mk [] 0 0 9 0 0) ⟨1, 5⟩ rfl rfl (le_refl 0) zero_lt_one⟩

/-- C4: a non-empty page whose oldest (last) message falls before the
retention cutoff marks the channel complete; the retained batch is exactly
the messages with timestamp at least the cutoff, in page order; the retained
count is added to totalMessages; and a non-empty retained batch is appended
to the channel's log. -/
theorem cutoff_page_completes_and_filters (cutoff : Int) (chans : List Chan)
    (env : Env) (s : SessionState) (c : Chan) (msgs : List Msg)
    (hsel : (stillActiveOf chans s.progress)[s.rrIndex %
      (stillActiveOf chans s.progress).length]? = some c)
    (ho : env.outcome = .page msgs) (hne : msgs.isEmpty = false)
    (_hsorted : msgs.Chain' (fun a b => b.ts < a.ts))
    (hlast : ∃ m, msgs.getLast? = some m ∧ m.ts < cutoff) :
    ∃ s' evs, step cutoff chans env s = some (s', evs) ∧
      (getChannelProgress s'.progress c.channelId).complete = true ∧
      (scanPage cutoff msgs).retained =
        msgs.filter (fun m => decide (cutoff ≤ m.ts)) ∧
      (getChannelProgress s'.progress c.channelId).totalMessages =
        (getChannelProgress s.progress c.channelId).totalMessages +
          (msgs.filter (fun m => decide (cutoff ≤ m.ts))).length ∧
      ((msgs.filter (fun m => decide (cutoff ≤ m.ts))).isEmpty = false →
        Event.appendLog c.serverId c.channelId
          (msgs.filter (fun m => decide (cutoff ≤ m.ts))) ∈ evs) := by
  obtain ⟨mlast, hml, hmlt⟩ := hlast
  have hhit : (scanPage cutoff msgs).hitCutoff = true := by
    rw [scanPage_hitCutoff]
    exact List.any_eq_true.mpr ⟨mlast, List.mem_of_mem_getLast? hml, by simpa using hmlt⟩
  have hme : ¬ msgs.isEmpty = true := by simp [hne]
  rw [step_of_selected cutoff chans env s c hsel]
  refine ⟨_, _, rfl, ?_, scanPage_retained cutoff msgs, ?_, ?_⟩
  · obtain ⟨o, now, uB, uP, uN, z⟩ := env
    replace ho : o = FetchOutcome.page msgs := ho
    subst ho
    simp [stepWith, hme, pacing_progress, getChannelProgress_set,
      updateProgress_complete, hhit]
  · obtain ⟨o, now, uB, uP, uN, z⟩ := env
    replace ho : o = FetchOutcome.page msgs := ho
    subst ho
    simp [stepWith, hme, pacing_progress, getChannelProgress_set,
      updateProgress_total, scanPage_retained]
  · intro hfne
    have hre : ¬ (scanPage cutoff msgs).retained.isEmpty = true := by
      rw [scanPage_retained]
      simp [hfne]
    obtain ⟨o, now, uB, uP, uN, z⟩ := env
    replace ho : o = FetchOutcome.page msgs := ho
    subst ho
    simp [stepWith, hme, hre, scanPage_retained]
    left
    have hnil : msgs.filter (fun m => decide (cutoff ≤ m.ts)) ≠ [] := by
      intro hh
      rw [hh] at hfne
      simp at hfne
    obtain ⟨m, hm⟩ := List.exists_mem_of_ne_nil _ hnil
    have hmf := List.mem_filter.mp hm
    exact ⟨m, hmf.1, by simpa using hmf.2⟩

/-- C4 witness: a two-message page straddling the cutoff. -/
theorem cutoff_page_completes_and_filters_w :
    ([⟨10, 5⟩, ⟨9, -3⟩] : List Msg).Chain' (fun a b => b.ts < a.ts) ∧
    (∃ m, ([⟨10, 5⟩, ⟨9, -3⟩] : List Msg).getLast? = some m ∧ m.ts < 0) ∧
    (∃ s' evs,
      step 0 [⟨1, 5⟩] ⟨FetchOutcome.page [⟨10, 5⟩, ⟨9, -3⟩], 7, 0, 0, 0, 0⟩
        (SessionState.mk [] 0 0 9 0 0) = some (s', evs) ∧
      (getChannelProgress s'.progress 5).complete = true ∧
      (scanPage 0 [⟨10, 5⟩, ⟨9, -3⟩]).retained =
        ([⟨10, 5⟩, ⟨9, -3⟩] : List Msg).filter (fun m => decide ((0:Int) ≤ m.ts)) ∧
      (getChannelProgress s'.progress 5).totalMessages =
        (getChannelProgress (SessionState.mk [] 0 0 9 0 0).progress 5).totalMessages +
          (([⟨10, 5⟩, ⟨9, -3⟩] : List Msg).filter
            (fun m => decide ((0:Int) ≤ m.ts))).length ∧
      ((([⟨10, 5⟩, ⟨9, -3⟩] : List Msg).filter
          (fun m => decide ((0:Int) ≤ m.ts))).isEmpty = false →
        Event.appendLog 1 5 (([⟨10, 5⟩, ⟨9, -3⟩] : List Msg).filter
          (fun m => decide ((0:Int) ≤ m.ts))) ∈ evs)) :=
  ⟨by simp [List.chain'_cons], ⟨⟨9, -3⟩, rfl, by decide⟩,
    cutoff_page_completes_and_filters 0 [⟨1, 5⟩]
      ⟨FetchOutcome.page [⟨10, 5⟩, ⟨9, -3⟩], 7, 0, 0, 0, 0⟩
      (SessionState.mk [] 0 0 9 0 0) ⟨1, 5⟩ [⟨10, 5⟩, ⟨9, -3⟩]
      rfl rfl rfl (by simp [List.chain'_cons]) ⟨⟨9, -3⟩, rfl, by decide⟩⟩

/-- C5: within one iteration's trace, every append of a retained batch to a
channel log occurs at a strictly earlier position than every save of the
progress ledger (write-log-then-write-ledger ordering). -/
theorem append_before_save (cutoff : Int) (chans : List Chan) (env : Env)
    (s s' : SessionState) (evs : List Event) (i j sv cid : Nat) (b : List Msg)
    (pr : Ledger) (h : step cutoff chans env s = some (s', evs))
    (hi : evs[i]? = some (Event.appendLog sv cid b))
    (hj : evs[j]? = some (Event.saveLedger pr)) :
    i < j := by
  obtain ⟨c, hsel, heq⟩ := step_inv cutoff chans env s s' evs h
  have hevs : evs = (stepWith cutoff env s c (stillActiveOf chans s.progress).length).2 := by
    rw [← heq]
  subst hevs
  obtain ⟨o, now, uB, uP, uN, z⟩ := env
  cases o with
  | guildMissing => simp [stepWith] at hi
  | inaccessible =>
    rcases i with _ | i <;> simp [stepWith] at hi
  | rateLimited =>
    rcases i with _ | _ | i <;> simp [stepWith] at hi
  | otherError =>
    rcases i with _ | i <;> simp [stepWith] at hi
  | page msgs =>
    by_cases hme : msgs.isEmpty
    · rcases i with _ | _ | i <;> simp [stepWith, hme] at hi
    · simp only [stepWith, hme, Bool.false_eq_true, if_false] at hi hj
      unfold pacing at hi hj
      split_ifs at hi hj with hp hr hr
      all_goals
        rcases i with _ | _ | _ | _ | i <;> rcases j with _ | _ | _ | _ | j <;>
          simp_all

/-- C5 witness: a concrete one-message page; the batch append sits at index
1 of the trace and the ledger save at index 2. -/
theorem append_before_save_w :
    step 0 [⟨1, 5⟩] ⟨FetchOutcome.page [⟨10, 5⟩], 7, 0, 0, 0, 0⟩
        (SessionState.mk [] 0 0 9 0 0) =
      some (SessionState.mk [(5, ⟨some 10, 1, false, 7⟩)] 1 1 9 0 1,
        [Event.fetchIssued 5 none, Event.appendLog 1 5 [⟨10, 5⟩],
         Event.saveLedger [(5, ⟨some 10, 1, false, 7⟩)],
         Event.sleepMs (randomDelay 5 1.2 3 8 0 * 1)]) ∧
    ([Event.fetchIssued 5 none, Event.appendLog 1 5 [⟨10, 5⟩],
      Event.saveLedger [(5, ⟨some 10, 1, false, 7⟩)],
      Event.sleepMs (randomDelay 5 1.2 3 8 0 * 1)] : List Event)[1]? =
        some (Event.appendLog 1 5 [⟨10, 5⟩]) ∧
    ([Event.fetchIssued 5 none, Event.appendLog 1 5 [⟨10, 5⟩],
      Event.saveLedger [(5, ⟨some 10, 1, false, 7⟩)],
      Event.sleepMs (randomDelay 5 1.2 3 8 0 * 1)] : List Event)[2]? =
        some (Event.saveLedger [(5, ⟨some 10, 1, false, 7⟩)]) ∧
    1 < 2 :=
  ⟨rfl, rfl, rfl,
    append_before_save 0 [⟨1, 5⟩] ⟨FetchOutcome.page [⟨10, 5⟩], 7, 0, 0, 0, 0⟩
      (SessionState.mk [] 0 0 9 0 0)
      (SessionState.mk [(5, ⟨some 10, 1, false, 7⟩)] 1 1 9 0 1)
      [Event.fetchIssued 5 none, Event.appendLog 1 5 [⟨10, 5⟩],
       Event.saveLedger [(5, ⟨some 10, 1, false, 7⟩)],
       Event.sleepMs (randomDelay 5 1.2 3 8 0 * 1)]
      1 2 1 5 [⟨10, 5⟩] [(5, ⟨some 10, 1, false, 7⟩)] rfl rfl rfl⟩

/-- C6: a zero-size fetch result marks the channel complete, persists the
updated ledger (a save of the new ledger is in the trace), and leaves the
channel's totalMessages unchanged. -/
theorem zero_page_marks_complete (cutoff : Int) (chans : List Chan) (env : Env)
    (s : SessionState) (c : Chan)
    (hsel : (stillActiveOf chans s.progress)[s.rrIndex %
      (stillActiveOf chans s.progress).length]? = some c)
    (ho : env.outcome = .page []) :
    ∃ s' evs, step cutoff chans env s = some (s', evs) ∧
      (getChannelProgress s'.progress c.channelId).complete = true ∧
      (getChannelProgress s'.progress c.channelId).totalMessages =
        (getChannelProgress s.progress c.channelId).totalMessages ∧
      Event.saveLedger s'.progress ∈ evs := by
  rw [step_of_selected cutoff chans env s c hsel]
  refine ⟨_, _, rfl, ?_, ?_, ?_⟩
  all_goals
    obtain ⟨o, now, uB, uP, uN, z⟩ := env
    replace ho : o = FetchOutcome.page [] := ho
    subst ho
    simp [stepWith, getChannelProgress_set]

/-- C6 witness: a concrete zero-size fetch for a fresh channel. -/
theorem zero_page_marks_complete_w :
    ∃ s' evs,
      step 0 [⟨1, 5⟩] ⟨FetchOutcome.page [], 7, 0, 0, 0, 0⟩
        (SessionState.mk [] 0 0 9 0 0) = some (s', evs) ∧
      (getChannelProgress s'.progress 5).complete = true ∧
      (getChannelProgress s'.progress 5).totalMessages =
        (getChannelProgress (SessionState.mk [] 0 0 9 0 0).progress 5).totalMessages ∧
      Event.saveLedger s'.progress ∈ evs :=
  zero_page_marks_complete 0 [⟨1, 5⟩] ⟨FetchOutcome.page [], 7, 0, 0, 0, 0⟩
    (SessionState.mk [] 0 0 9 0 0) ⟨1, 5⟩ rfl rfl

theorem pacing_countP_sleep (env : Env) (s : SessionState) :
    (pacing env s).2.countP isSleep = 1 := by
  unfold pacing
  split <;> simp [isSleep]

theorem pacing_pause (env : Env) (s : SessionState)
    (hp : (s.requestsSinceLastPause : ℤ) ≥ s.nextPauseAfter) :
    pacing env s =
      ({ s with
          requestsSinceLastPause := 0
          nextPauseAfter := randInt env.uNextPause 8 15 },
       [Event.sleepMs (randInt env.uPause 15 45 * 1000)]) := by
  unfold pacing
  rw [if_pos hp]

theorem pacing_ordinary (env : Env) (s : SessionState)
    (hp : ¬ (s.requestsSinceLastPause : ℤ) ≥ s.nextPauseAfter) :
    pacing env s =
      ({ s with
          slowdownRemaining :=
            if s.slowdownRemaining > 0 then s.slowdownRemaining - 1
            else s.slowdownRemaining },
       [Event.sleepMs (randomDelay 5 1.2 3 8 env.zGauss *
          (if s.slowdownRemaining > 0 then 2 else 1))]) := by
  unfold pacing
  rw [if_neg hp]

theorem getLast?_shape {α : Type} (a c d : α) (bs : List α) :
    (a :: (bs ++ c :: [d])).getLast? = some d := by
  have hsh : a :: (bs ++ c :: [d]) = ((a :: bs) ++ [c]) ++ [d] := by simp
  rw [hsh, List.getLast?_concat]

/-- C7 counterexample: an iteration ending in a zero-size result increments
the request counter yet continues without any sleep, and a transient-error
iteration neither increments the counter nor sleeps — contradicting the
claim that every non-rate-limited iteration ends in a pacing sleep. -/
theorem pacing_skipped_cx :
    (step 0 [⟨1, 5⟩] ⟨FetchOutcome.page [], 7, 0, 0, 0, 0⟩
        (SessionState.mk [] 0 0 9 0 0)).map
      (fun r => (r.1.requestsSinceLastPause, r.2.countP isSleep)) = some (1, 0) ∧
    (step 0 [⟨1, 5⟩] ⟨FetchOutcome.otherError, 0, 0, 0, 0, 0⟩
        (SessionState.mk [] 0 5 9 0 0)).map
      (fun r => (r.1.requestsSinceLastPause, r.2.countP isSleep)) = some (5, 0) :=
  ⟨rfl, rfl⟩

/-- C7 amended: the request counter is incremented right after every
successful fetch, but the pacing block runs only in iterations completing a
non-empty page: those end with exactly one sleep — a reading pause (counter
reset, threshold redrawn from randInt 8..15, pause randInt 15..45 s) when
the incremented counter has reached the threshold, otherwise the jittered
ordinary delay doubled while the slowdown counter is positive (which is then
decremented). Zero-size iterations increment the counter but skip the sleep,
and transient-error iterations neither increment nor sleep. -/
theorem pacing_only_after_nonempty_page (cutoff : Int) (chans : List Chan) (env : Env)
    (s : SessionState) (c : Chan)
    (hsel : (stillActiveOf chans s.progress)[s.rrIndex %
      (stillActiveOf chans s.progress).length]? = some c) :
    (env.outcome = .page [] →
      ∃ s' evs, step cutoff chans env s = some (s', evs) ∧
        s'.requestsSinceLastPause = s.requestsSinceLastPause + 1 ∧
        evs.countP isSleep = 0) ∧
    (env.outcome = .otherError →
      ∃ s' evs, step cutoff chans env s = some (s', evs) ∧
        s'.requestsSinceLastPause = s.requestsSinceLastPause ∧
        evs.countP isSleep = 0) ∧
    (∀ msgs, env.outcome = .page msgs → msgs.isEmpty = false →
      ∃ s' evs, step cutoff chans env s = some (s', evs) ∧
        evs.countP isSleep = 1 ∧
        (((s.requestsSinceLastPause + 1 : Nat) : ℤ) ≥ s.nextPauseAfter →
          s'.requestsSinceLastPause = 0 ∧
          s'.nextPauseAfter = randInt env.uNextPause 8 15 ∧
          evs.getLast? = some (Event.sleepMs (randInt env.uPause 15 45 * 1000))) ∧
        (¬ ((s.requestsSinceLastPause + 1 : Nat) : ℤ) ≥ s.nextPauseAfter →
          s'.requestsSinceLastPause = s.requestsSinceLastPause + 1 ∧
          s'.slowdownRemaining =
            (if s.slowdownRemaining > 0 then s.slowdownRemaining - 1
             else s.slowdownRemaining) ∧
          evs.getLast? = some (Event.sleepMs (randomDelay 5 1.2 3 8 env.zGauss *
            (if s.slowdownRemaining > 0 then 2 else 1))))) := by
  refine ⟨?_, ?_, ?_⟩
  · intro ho
    rw [step_of_selected cutoff chans env s c hsel]
    refine ⟨_, _, rfl, ?_, ?_⟩
    all_goals
      obtain ⟨o, now, uB, uP, uN, z⟩ := env
      replace ho : o = FetchOutcome.page [] := ho
      subst ho
      simp [stepWith, isSleep]
  · intro ho
    rw [step_of_selected cutoff chans env s c hsel]
    refine ⟨_, _, rfl, ?_, ?_⟩
    all_goals
      obtain ⟨o, now, uB, uP, uN, z⟩ := env
      replace ho : o = FetchOutcome.otherError := ho
      subst ho
      simp [stepWith, isSleep]
  · intro msgs ho hne
    have hme : ¬ msgs.isEmpty = true := by simp [hne]
    rw [step_of_selected cutoff chans env s c hsel]
    refine ⟨_, _, rfl, ?_, ?_, ?_⟩
    · obtain ⟨o, now, uB, uP, uN, z⟩ := env
      replace ho : o = FetchOutcome.page msgs := ho
      subst ho
      by_cases hre : (scanPage cutoff msgs).retained.isEmpty
      · simp [stepWith, hme, hre, pacing, isSleep, List.countP_cons, List.countP_append]
        split <;> simp [isSleep]
      · simp [stepWith, hme, hre, pacing, isSleep, List.countP_cons, List.countP_append]
        split <;> simp [isSleep]
    · intro hp
      push_cast at hp
      obtain ⟨o, now, uB, uP, uN, z⟩ := env
      replace ho : o = FetchOutcome.page msgs := ho
      subst ho
      by_cases hre : (scanPage cutoff msgs).retained.isEmpty <;>
        simp [stepWith, hme, hre, pacing, hp, getLast?_shape]
    · intro hp
      push_cast at hp
      obtain ⟨o, now, uB, uP, uN, z⟩ := env
      replace ho : o = FetchOutcome.page msgs := ho
      subst ho
      by_cases hre : (scanPage cutoff msgs).retained.isEmpty <;>
        simp [stepWith, hme, hre, pacing, hp, getLast?_shape]

/-- C7 amended witness: a concrete zero-size iteration taken through the
amended theorem (counter incremented, no sleep). -/
theorem pacing_only_after_nonempty_page_w :
    ((stillActiveOf [⟨1, 5⟩] [])[0 % (stillActiveOf [⟨1, 5⟩] []).length]? =
      some (⟨1, 5⟩ : Chan)) ∧
    (∃ s' evs,
      step 0 [⟨1, 5⟩] ⟨FetchOutcome.page [], 7, 0, 0, 0, 0⟩
        (SessionState.mk [] 0 0 9 0 0) = some (s', evs) ∧
      s'.requestsSinceLastPause = 0 + 1 ∧
      evs.countP isSleep = 0) :=
  ⟨rfl,
    (pacing_only_after_nonempty_page 0 [⟨1, 5⟩] ⟨FetchOutcome.page [], 7, 0, 0, 0, 0⟩
      (SessionState.mk [] 0 0 9 0 0) ⟨1, 5⟩ rfl).1 rfl⟩

/-- C9: the jittered delay sampler clamps every draw into [min, max] when
min ≤ max; in particular every draw of randomDelay(5, 1.2, 3, 8) lies
between 3 and 8 seconds (3000 to 8000 ms). -/
theorem jittered_delay_in_clamp (meanSec stddevSec minSec maxSec z : ℚ)
    (h : minSec ≤ maxSec) :
    minSec ≤ clampSec minSec maxSec (gaussianRandom meanSec stddevSec z) ∧
    clampSec minSec maxSec (gaussianRandom meanSec stddevSec z) ≤ maxSec ∧
    (3000 : ℤ) ≤ randomDelay 5 1.2 3 8 z ∧ randomDelay 5 1.2 3 8 z ≤ 8000 := by
  have h38 : (3 : ℚ) ≤ 8 := by norm_num
  have hc3 : (3 : ℚ) ≤ clampSec 3 8 (gaussianRandom 5 1.2 z) :=
    le_min h38 (le_max_left 3 _)
  have hc8 : clampSec 3 8 (gaussianRandom 5 1.2 z) ≤ 8 := min_le_left 8 _
  refine ⟨le_min h (le_max_left minSec _), min_le_left maxSec _, ?_, ?_⟩
  · unfold randomDelay
    rw [round_eq]
    rw [Int.le_floor]
    push_cast
    linarith
  · unfold randomDelay
    rw [round_eq]
    have hlt : ⌊clampSec 3 8 (gaussianRandom 5 1.2 z) * 1000 + 1 / 2⌋ < 8001 := by
      rw [Int.floor_lt]
      push_cast
      linarith
    omega

/-- C9 witness: degenerate clamp window min = max = 5. -/
theorem jittered_delay_in_clamp_w :
    (5 : ℚ) ≤ 5 ∧
    ((5 : ℚ) ≤ clampSec 5 5 (gaussianRandom 5 (6/5) 7) ∧
     clampSec 5 5 (gaussianRandom 5 (6/5) 7) ≤ 5 ∧
     (3000 : ℤ) ≤ randomDelay 5 1.2 3 8 7 ∧ randomDelay 5 1.2 3 8 7 ≤ 8000) :=
  ⟨le_refl 5, jittered_delay_in_clamp 5 (6/5) 5 5 7 (le_refl 5)⟩

/-! ### Round-robin fairness -/

theorem stillActiveOf_eq_self (chans : List Chan) (p : Ledger)
    (h : ∀ x ∈ chans, (getChannelProgress p x.channelId).complete = false) :
    stillActiveOf chans p = chans :=
  List.filter_eq_self.mpr fun x hx => by simp [h x hx]

/-- Under an outcome that keeps channels active, the iteration body issues
exactly one fetch, for the selected channel. -/
theorem stepWith_fetchCount_self (cutoff : Int) (env : Env) (s : SessionState)
    (c : Chan) (n : Nat) (hka : keepsActive cutoff env) :
    fetchCount c.channelId (stepWith cutoff env s c n).2 = 1 := by
  obtain ⟨o, now, uB, uP, uN, z⟩ := env
  cases o with
  | guildMissing => exact hka.elim
  | inaccessible => exact hka.elim
  | rateLimited => simp [stepWith, fetchCount, isFetchFor]
  | otherError => simp [stepWith, fetchCount, isFetchFor]
  | page msgs =>
    obtain ⟨hne, hcut⟩ := hka
    have hme : ¬ msgs.isEmpty = true := by simp [List.isEmpty_iff, hne]
    by_cases hre : (scanPage cutoff msgs).retained.isEmpty <;>
      simp [stepWith, hme, hre, fetchCount, isFetchFor, List.countP_cons,
        List.countP_append, pacing_countP_fetch]

/-- Under an outcome that keeps channels active, no channel becomes
complete during the iteration body. -/
theorem stepWith_keepsActive_complete (cutoff : Int) (env : Env) (s : SessionState)
    (c : Chan) (n : Nat) (hka : keepsActive cutoff env) (cid : Nat)
    (h : (getChannelProgress s.progress cid).complete = false) :
    (getChannelProgress (stepWith cutoff env s c n).1.progress cid).complete = false := by
  obtain ⟨o, now, uB, uP, uN, z⟩ := env
  cases o with
  | guildMissing => exact hka.elim
  | inaccessible => exact hka.elim
  | rateLimited => simpa [stepWith] using h
  | otherError => simpa [stepWith] using h
  | page msgs =>
    obtain ⟨hne, hcut⟩ := hka
    have hme : ¬ msgs.isEmpty = true := by simp [List.isEmpty_iff, hne]
    have hhit : (scanPage cutoff msgs).hitCutoff = false := by
      rw [scanPage_hitCutoff]
      simp only [List.any_eq_false, decide_eq_true_eq]
      intro m hm
      exact Int.not_lt.mpr (hcut m hm)
    by_cases hc : cid = c.channelId
    · subst hc
      simp [stepWith, hme, pacing_progress, getChannelProgress_set,
        updateProgress_complete, hhit, h]
    · simpa [stepWith, hme, pacing_progress, getChannelProgress_set, hc] using h

theorem pairwise_ne_getElem (l : List Chan)
    (hd : l.Pairwise (fun x y => x.channelId ≠ y.channelId))
    (i j : Nat) (hi : i < l.length) (hj : j < l.length) (hne : i ≠ j) :
    l[i].channelId ≠ l[j].channelId := by
  rcases Nat.lt_or_ge i j with hlt | hge
  · exact (List.pairwise_iff_getElem.mp hd) i j hi hj hlt
  · have hlt : j < i := by omega
    exact fun he => ((List.pairwise_iff_getElem.mp hd) j i hj hi hlt) he.symm

theorem countP_range_mod_three (k j : Nat) (hj : j < 3) :
    (List.range (3 * k)).countP (fun n => decide (n % 3 = j)) = k := by
  induction k with
  | zero => rfl
  | succ k ih =>
    have h3 : 3 * (k + 1) = 3 * k + 3 := by ring
    rw [h3, List.range_add, List.countP_append, ih]
    have hr3 : List.range 3 = [0, 1, 2] := rfl
    rw [hr3]
    have e0 : (3 * k + 0) % 3 = 0 := by omega
    have e1 : (3 * k + 1) % 3 = 1 := by omega
    have e2 : (3 * k + 2) % 3 = 2 := by omega
    rcases j with _ | _ | _ | j
    · simp [List.countP_cons, e0, e1, e2]
    · simp [List.countP_cons, e0, e1, e2]
    · simp [List.countP_cons, e0, e1, e2]
    · omega

/-- Selection count over a run in which every outcome keeps all channels
active: channel j is fetched exactly in the iterations n with
(rrIndex + n) mod size = j. -/
theorem run_fetch_count_aux (cutoff : Int) (chans : List Chan)
    (hd : chans.Pairwise (fun x y => x.channelId ≠ y.channelId)) (es : List Env) :
    ∀ (s : SessionState) (j : Nat) (hj : j < chans.length),
    (∀ x ∈ chans, (getChannelProgress s.progress x.channelId).complete = false) →
    (∀ e ∈ es, keepsActive cutoff e) →
    fetchCount (chans[j].channelId) (run cutoff chans es s).2 =
      (List.range es.length).countP
        (fun n => decide ((s.rrIndex + n) % chans.length = j)) := by
  induction es with
  | nil => intro s j hj hnc hka; rfl
  | cons e es ih =>
    intro s j hj hnc hka
    have hlen : 0 < chans.length := Nat.lt_of_le_of_lt (Nat.zero_le j) hj
    have hsa : stillActiveOf chans s.progress = chans :=
      stillActiveOf_eq_self chans s.progress hnc
    have hidx : s.rrIndex % chans.length < chans.length := Nat.mod_lt _ hlen
    have hsel : (stillActiveOf chans s.progress)[s.rrIndex %
        (stillActiveOf chans s.progress).length]? =
        some (chans[s.rrIndex % chans.length]) := by
      rw [hsa]
      exact List.getElem?_eq_getElem hidx
    have hstep := step_of_selected cutoff chans e s _ hsel
    have hkhd : keepsActive cutoff e := hka e (List.mem_cons_self e es)
    have hktl : ∀ x ∈ es, keepsActive cutoff x := fun x hx => hka x (List.mem_cons_of_mem e hx)
    set X := stepWith cutoff e s (chans[s.rrIndex % chans.length])
      (stillActiveOf chans s.progress).length with hX
    unfold run
    cases hstep2 : step cutoff chans e s with
    | none =>
      rw [hstep] at hstep2
      exact absurd hstep2 (by simp)
    | some r =>
      obtain ⟨s1, evs⟩ := r
      have hXe : X = (s1, evs) := Option.some_injective _ (hstep.symm.trans hstep2)
      have h1 : s1 = X.1 := by rw [hXe]
      have h2 : evs = X.2 := by rw [hXe]
      subst h1
      subst h2
      have hnc' : ∀ x ∈ chans,
          (getChannelProgress X.1.progress x.channelId).complete = false :=
        fun x hx => stepWith_keepsActive_complete cutoff e s _ _ hkhd _ (hnc x hx)
      have hrr : X.1.rrIndex = s.rrIndex % chans.length + 1 := by
        rw [hX, stepWith_rrIndex, hsa]
      have htail := ih X.1 j hj hnc' hktl
      simp only [fetchCount, List.countP_append] at htail ⊢
      rw [htail]
      rw [List.length_cons, List.range_succ_eq_map, List.countP_cons, List.countP_map]
      have hfun : ((fun n => decide ((s.rrIndex + n) % chans.length = j)) ∘ (· + 1)) =
          (fun n => decide ((X.1.rrIndex + n) % chans.length = j)) := by
        funext n
        simp only [Function.comp_apply]
        have harith : (s.rrIndex % chans.length + 1 + n) % chans.length =
            (s.rrIndex + (n + 1)) % chans.length := by
          rw [Nat.add_assoc, Nat.mod_add_mod, Nat.add_comm 1 n]
        rw [hrr, harith]
      rw [hfun]
      by_cases hij : s.rrIndex % chans.length = j
      · subst hij
        have hhead : List.countP
            (isFetchFor chans[s.rrIndex % chans.length].channelId) X.2 = 1 := by
          have hme := stepWith_fetchCount_self cutoff e s (chans[s.rrIndex % chans.length])
            (stillActiveOf chans s.progress).length hkhd
          simp only [fetchCount] at hme
          rw [← hX] at hme
          exact hme
        rw [hhead]
        have hp0 : decide ((s.rrIndex + 0) % chans.length =
            s.rrIndex % chans.length) = true := by
          simp
        rw [hp0]
        simp [Nat.add_comm]
      · have hhead : List.countP (isFetchFor chans[j].channelId) X.2 = 0 := by
          have hne := pairwise_ne_getElem chans hd (s.rrIndex % chans.length) j hidx hj hij
          have hme := stepWith_fetchCount_ne cutoff e s (chans[s.rrIndex % chans.length])
            (stillActiveOf chans s.progress).length (chans[j].channelId) hne
          simp only [fetchCount] at hme
          rw [← hX] at hme
          exact hme
        rw [hhead]
        have hp0 : decide ((s.rrIndex + 0) % chans.length = j) = false := by
          simpa using hij
        rw [hp0]
        simp

/-- C8: with 3 pairwise-distinct channels all non-complete, a session whose
outcomes never complete a channel selects and fetches each channel exactly k
times over 3k iterations (round-robin starting at index 0, index advancing
mod the active-set size and never reset). -/
theorem round_robin_fair (cutoff : Int) (a b c : Chan) (es : List Env)
    (s : SessionState) (k : Nat)
    (hd : ([a, b, c] : List Chan).Pairwise (fun x y => x.channelId ≠ y.channelId))
    (hrr : s.rrIndex = 0)
    (hnc : ∀ x ∈ ([a, b, c] : List Chan),
      (getChannelProgress s.progress x.channelId).complete = false)
    (hka : ∀ e ∈ es, keepsActive cutoff e)
    (hlen : es.length = 3 * k) :
    fetchCount a.channelId (run cutoff [a, b, c] es s).2 = k ∧
    fetchCount b.channelId (run cutoff [a, b, c] es s).2 = k ∧
    fetchCount c.channelId (run cutoff [a, b, c] es s).2 = k := by
  have h0 := run_fetch_count_aux cutoff [a, b, c] hd es s 0 (by simp) hnc hka
  have h1 := run_fetch_count_aux cutoff [a, b, c] hd es s 1 (by simp) hnc hka
  have h2 := run_fetch_count_aux cutoff [a, b, c] hd es s 2 (by simp) hnc hka
  simp only [hrr, hlen, Nat.zero_add, List.length_cons, List.length_nil] at h0 h1 h2
  have hga : ([a, b, c] : List Chan)[0] = a := rfl
  have hgb : ([a, b, c] : List Chan)[1] = b := rfl
  have hgc : ([a, b, c] : List Chan)[2] = c := rfl
  rw [hga] at h0
  rw [hgb] at h1
  rw [hgc] at h2
  refine ⟨?_, ?_, ?_⟩
  · rw [h0, countP_range_mod_three k 0 (by omega)]
  · rw [h1, countP_range_mod_three k 1 (by omega)]
  · rw [h2, countP_range_mod_three k 2 (by omega)]

/-- C8 witness: three distinct fresh channels and three transient-error
iterations: each channel is fetched exactly once. -/
theorem round_robin_fair_w :
    (([⟨1, 5⟩, ⟨1, 6⟩, ⟨1, 7⟩] : List Chan).Pairwise
      (fun x y => x.channelId ≠ y.channelId)) ∧
    (SessionState.mk [] 0 0 9 0 0).rrIndex = 0 ∧
    (∀ x ∈ ([⟨1, 5⟩, ⟨1, 6⟩, ⟨1, 7⟩] : List Chan),
      (getChannelProgress (SessionState.mk [] 0 0 9 0 0).progress
        x.channelId).complete = false) ∧
    (∀ e ∈ [(⟨FetchOutcome.otherError, 0, 0, 0, 0, 0⟩ : Env),
        ⟨FetchOutcome.otherError, 0, 0, 0, 0, 0⟩,
        ⟨FetchOutcome.otherError, 0, 0, 0, 0, 0⟩], keepsActive 0 e) ∧
    ([(⟨FetchOutcome.otherError, 0, 0, 0, 0, 0⟩ : Env),
        ⟨FetchOutcome.otherError, 0, 0, 0, 0, 0⟩,
        ⟨FetchOutcome.otherError, 0, 0, 0, 0, 0⟩].length = 3 * 1) ∧
    (fetchCount 5 (run 0 [⟨1, 5⟩, ⟨1, 6⟩, ⟨1, 7⟩]
        [⟨FetchOutcome.otherError, 0, 0, 0, 0, 0⟩,
         ⟨FetchOutcome.otherError, 0, 0, 0, 0, 0⟩,
         ⟨FetchOutcome.otherError, 0, 0, 0, 0, 0⟩]
        (SessionState.mk [] 0 0 9 0 0)).2 = 1 ∧
     fetchCount 6 (run 0 [⟨1, 5⟩, ⟨1, 6⟩, ⟨1, 7⟩]
        [⟨FetchOutcome.otherError, 0, 0, 0, 0, 0⟩,
         ⟨FetchOutcome.otherError, 0, 0, 0, 0, 0⟩,
         ⟨FetchOutcome.otherError, 0, 0, 0, 0, 0⟩]
        (SessionState.mk [] 0 0 9 0 0)).2 = 1 ∧
     fetchCount 7 (run 0 [⟨1, 5⟩, ⟨1, 6⟩, ⟨1, 7⟩]
        [⟨FetchOutcome.otherError, 0, 0, 0, 0, 0⟩,
         ⟨FetchOutcome.otherError, 0, 0, 0, 0, 0⟩,
         ⟨FetchOutcome.otherError, 0, 0, 0, 0, 0⟩]
        (SessionState.mk [] 0 0 9 0 0)).2 = 1) :=
  ⟨by simp, rfl, fun x _ => rfl, by intro e he; fin_cases he <;> trivial, rfl,
    round_robin_fair 0 ⟨1, 5⟩ ⟨1, 6⟩ ⟨1, 7⟩
      [⟨FetchOutcome.otherError, 0, 0, 0, 0, 0⟩,
       ⟨FetchOutcome.otherError, 0, 0, 0, 0, 0⟩,
       ⟨FetchOutcome.otherError, 0, 0, 0, 0, 0⟩]
      (SessionState.mk [] 0 0 9 0 0) 1 (by simp) rfl (fun x _ => rfl)
      (by intro e he; fin_cases he <;> trivial) rfl⟩

end ResearchFetch
